import Mathlib

/-!
A verification development for the fantasy-football tracker
(`fantasy_football_tracker.py`): a shallow embedding of its points-aggregation,
standings-comparison and snapshot-store logic, together with theorems about the
embedded definitions.

Python dictionaries are modelled as association lists (`List (κ × ν)`), which
preserves insertion order — Python dicts iterate in insertion order, and the
code relies on that order for stable tie-breaking.  Python integers are
modelled as `Int` (scores and adjustments may be negative), period/phase/player
identifiers as `Nat`, manager names as `String`.
-/

namespace Tracker

/-- Per-gameweek player scores: `gameweek_data[gw] : player_id → points`. -/
abbrev Scores := List (Nat × Int)

/-- The global `gameweek_data` table: gameweek → per-player scores. -/
abbrev GwData := List (Nat × Scores)

/-- One manager's squads: `manager_squads[m] : phase → list of player ids`.
The player ids are kept as the list parsed from the CSV (order and possible
duplicates preserved, as in the source). -/
abbrev MgrPhases := List (Nat × List Nat)

/-- The global `manager_squads` table: manager name → per-phase squads. -/
abbrev Squads := List (String × MgrPhases)

/-- The phase table `PHASES`: phase index → the list of gameweeks it covers. -/
abbrev PhaseTable := List (Nat × List Nat)

/-- The `POINT_CORRECTIONS` list: `(player_id, phase, adjustment)` triples. -/
abbrev Corrections := List (Nat × Nat × Int)

/-- The concrete `PHASES` constant of the source:
five phases covering gameweeks 1–38 (`range(1,12)`, `range(12,21)`,
`range(21,25)`, `range(25,30)`, `range(30,39)`). -/
def PHASES : PhaseTable :=
  [ (1, List.range' 1 11)
  , (2, List.range' 12 9)
  , (3, List.range' 21 4)
  , (4, List.range' 25 5)
  , (5, List.range' 30 9) ]

/-- The concrete `POINT_CORRECTIONS` constant of the source. -/
def POINT_CORRECTIONS : Corrections :=
  [ (218, 4, 8)
  , (324, 3, -1)
  , (450, 4, 1) ]

/-- The inner loop of the raw-points computation: for one gameweek's score
table, sum the scores of the rostered players, a missing player contributing 0
(`if player_id in gameweek_data[gw]: gw_points += gameweek_data[gw][player_id]`). -/
def gwPoints (scores : Scores) (playerIds : List Nat) : Int :=
  (playerIds.map (fun pid => (List.lookup pid scores).getD 0)).sum

/-- Raw (pre-correction) points of one squad over a list of gameweeks:
a gameweek absent from `gameweek_data` is skipped
(`if gw in gameweek_data:` in the source), contributing 0. -/
def rawPhasePoints (gwData : GwData) (gws : List Nat) (playerIds : List Nat) : Int :=
  (gws.map (fun gw =>
    match List.lookup gw gwData with
    | some scores => gwPoints scores playerIds
    | none => 0)).sum

/-- Add `adj` to the entry of key `ph` of a per-phase points table
(`phase_points[manager][phase] += adjustment`). -/
def updateAssoc (pts : List (Nat × Int)) (ph : Nat) (adj : Int) : List (Nat × Int) :=
  pts.map (fun e => if e.1 = ph then (e.1, e.2 + adj) else e)

/-- The correction loop of `calculate_manager_points` (lines 360–365),
restricted to one manager (the source iterates corrections outer and managers
inner; per-manager results are independent, so this is the same computation):
for each `(player_id, phase, adjustment)`, if the manager's squad table has the
phase and the player is in that phase's squad, add the adjustment to that
phase's points. -/
def applyCorrections (corrections : Corrections) (mgrPhases : MgrPhases)
    (pts : List (Nat × Int)) : List (Nat × Int) :=
  corrections.foldl (fun acc c =>
    match List.lookup c.2.1 mgrPhases with
    | some pids => if c.1 ∈ pids then updateAssoc acc c.2.1 c.2.2 else acc
    | none => acc) pts

/-- Raw per-phase points of one manager.  `PHASES[phase_num]` is a direct
index in the source and raises `KeyError` when the phase is missing from the
phase table; this is modelled by `Option`, `none` meaning the computation
raised. -/
def mgrRawPhasePoints (phases : PhaseTable) (gwData : GwData)
    (mgrPhases : MgrPhases) : Option (List (Nat × Int)) :=
  mgrPhases.mapM (fun pe =>
    (List.lookup pe.1 phases).map (fun gws => (pe.1, rawPhasePoints gwData gws pe.2)))

/-- The record stored in `manager_points[manager]`: the grand total and the
`phase_k` entries copied from the corrected phase points. -/
structure ManagerScore where
  total : Int
  phases : List (Nat × Int)
  deriving Repr, DecidableEq

/-- `calculate_manager_points` (lines 316–373), without the console prints and
the highest-gameweek side tracking (a separate fold over the same data that
feeds only a display banner, not the scores).  Returns
`(manager_points, phase_points)`; `none` models an uncaught `KeyError` from
`PHASES[phase_num]`.  The source returns empty results early when either
`manager_squads` or `gameweek_data` is empty. -/
def calculateManagerPoints (phases : PhaseTable) (squads : Squads)
    (gwData : GwData) (corrections : Corrections) :
    Option (List (String × ManagerScore) × List (String × List (Nat × Int))) :=
  if squads.isEmpty then some ([], [])
  else if gwData.isEmpty then some ([], [])
  else do
    let phasePts ← squads.mapM (fun me =>
      (mgrRawPhasePoints phases gwData me.2).map
        (fun pts => (me.1, applyCorrections corrections me.2 pts)))
    let managerPts := phasePts.map (fun me =>
      (me.1, ManagerScore.mk (me.2.map Prod.snd).sum me.2))
    some (managerPts, phasePts)

/-- One phase of the body of `calculate_points_up_to_gameweek` (lines
1987–2003): raw points over the phase's gameweeks restricted to
`gw <= gameweek`, then the corrections matching this phase and squad added
(`if phase == phase_num and player_id in player_ids`), with no restriction on
the cutoff.  `PHASES[phase_num]` raising `KeyError` is modelled by `Option`. -/
def upToPhaseEntry (phases : PhaseTable) (gwData : GwData)
    (corrections : Corrections) (gameweek : Nat) (pn : Nat) (pids : List Nat) :
    Option (Nat × Int) :=
  (List.lookup pn phases).map (fun gws =>
    let raw := rawPhasePoints gwData (gws.filter (· ≤ gameweek)) pids
    (pn, corrections.foldl (fun acc c =>
      if c.2.1 = pn ∧ c.1 ∈ pids then acc + c.2.2 else acc) raw))

/-- `calculate_points_up_to_gameweek` (lines 1968–2005): per phase, only
gameweeks `≤ gameweek` contribute raw points, then the corrections for that
phase are applied unconditionally, and the total accumulates the corrected
phase values. -/
def calculatePointsUpToGameweek (phases : PhaseTable) (squads : Squads)
    (gwData : GwData) (corrections : Corrections) (gameweek : Nat) :
    Option (List (String × ManagerScore)) :=
  squads.mapM (fun me =>
    ((me.2.mapM (fun pe => upToPhaseEntry phases gwData corrections gameweek pe.1 pe.2)).map
      (fun pts => (me.1, ManagerScore.mk (pts.map Prod.snd).sum pts))))

/-- Assign consecutive rank numbers starting at `k` to a list of keyed
entries — the body of `for position, (manager, _) in enumerate(sorted_managers, 1)`. -/
def ranksFrom {α : Type} (k : Nat) : List (String × α) → List (String × Nat)
  | [] => []
  | e :: rest => (e.1, k) :: ranksFrom (k + 1) rest

/-- The comparison used by `sorted(manager_points.items(),
key=lambda x: x[1]['total'], reverse=True)`: descending on total; Python's
sort is stable, and `mergeSort` with this comparison keeps ties in input
order exactly as Python does. -/
def byTotalDesc (a b : String × ManagerScore) : Bool :=
  decide (b.2.total ≤ a.2.total)

/-- Sort managers by total, highest first, ties in input (insertion) order. -/
def sortManagers (mps : List (String × ManagerScore)) : List (String × ManagerScore) :=
  mps.mergeSort byTotalDesc

/-- The `standings` mapping built by `save_current_standings` (lines 402–407)
and `calculate_position_changes` (lines 1949–1963): position 1 for the
highest total, assigned in sorted order. -/
def standingsOf (mps : List (String × ManagerScore)) : List (String × Nat) :=
  ranksFrom 1 (sortManagers mps)

/-- A standings snapshot record `{"gameweek": g, "standings": {...}}`. -/
structure Standings where
  gameweek : Nat
  standings : List (String × Nat)
  deriving Repr, DecidableEq

/-- `calculate_position_changes` (lines 1917–1965): for `current_gw <= 1`
returns empty standings; otherwise recomputes both gameweeks' points from the
same dataset and ranks each. -/
def calculatePositionChanges (phases : PhaseTable) (squads : Squads)
    (gwData : GwData) (corrections : Corrections) (currentGw : Nat) :
    Option (Standings × Standings) :=
  if currentGw ≤ 1 then some (⟨currentGw, []⟩, ⟨0, []⟩)
  else do
    let cur ← calculatePointsUpToGameweek phases squads gwData corrections currentGw
    let prev ← calculatePointsUpToGameweek phases squads gwData corrections (currentGw - 1)
    some (⟨currentGw, standingsOf cur⟩, ⟨currentGw - 1, standingsOf prev⟩)

/-- The baseline chosen by `main` (lines 1877–1891): for gameweek ≥ 2 the
previous-gameweek standings recomputed in-run, otherwise the empty baseline
`{"gameweek": 0, "standings": {}}`. -/
def mainPreviousStandings (phases : PhaseTable) (squads : Squads)
    (gwData : GwData) (corrections : Corrections) (currentGw : Nat) :
    Option Standings :=
  if 1 < currentGw then
    (calculatePositionChanges phases squads gwData corrections currentGw).map Prod.snd
  else some ⟨0, []⟩

/-- The four rank-movement states rendered by `generate_league_table`
(lines 531–562): the up / down / same / `NEW` markers. -/
inductive Movement
  | up
  | down
  | unchanged
  | new
  deriving Repr, DecidableEq

/-- The position-change branch of `generate_league_table` (lines 531–562):
look the manager up in the previous standings; `prev_pos > position` is UP,
`prev_pos < position` is DOWN, equality is UNCHANGED, and a manager absent
from the baseline is NEW. -/
def positionChange (prevPositions : List (String × Nat)) (manager : String)
    (position : Nat) : Movement :=
  match List.lookup manager prevPositions with
  | some prevPos =>
    if prevPos > position then .up
    else if prevPos < position then .down
    else .unchanged
  | none => .new

/-- The state of the snapshot file as the reader finds it: absent, present
but unparseable (`json.JSONDecodeError` / `IOError`), or holding a record. -/
inductive FileState (α : Type)
  | absent
  | corrupt
  | stored (val : α)

/-- `load_previous_standings` (lines 376–384).  The Python returns the
parsed record, or the empty dict `{}` (modelled `none`) when the file does
not exist or cannot be parsed; the `Bool` records whether the corruption
warning was printed. -/
def loadPreviousStandings (file : FileState Standings) : Option Standings × Bool :=
  match file with
  | .stored s => (some s, false)
  | .corrupt => (none, true)
  | .absent => (none, false)

/-- The phase-finding loop of `calculate_recent_gameweek_points`
(lines 421–426): the first phase whose gameweek range contains `gw`. -/
def findCurrentPhase (phases : PhaseTable) (gw : Nat) : Option Nat :=
  (phases.find? (fun pe => decide (gw ∈ pe.2))).map Prod.fst

/-- `calculate_recent_gameweek_points` (lines 416–452).  The `Bool` records
whether the "Could not determine phase" warning was printed; that branch is
taken when no phase contains the gameweek, when the found phase index is `0`
(Python falsiness of `if not current_phase`), or when the phase is missing
from `phase_points.get(manager, {})`. -/
def calculateRecentGameweekPoints (phases : PhaseTable) (squads : Squads)
    (gwData : GwData) (corrections : Corrections) (currentGw : Nat)
    (phasePoints : List (String × List (Nat × Int))) (manager : String) :
    Int × Bool :=
  if currentGw = 0 then (0, false)
  else
    match findCurrentPhase phases currentGw with
    | none => (0, true)
    | some cp =>
      if cp = 0 then (0, true)
      else if (List.lookup cp ((List.lookup manager phasePoints).getD [])).isNone then
        (0, true)
      else
        match List.lookup manager squads with
        | none => (0, false)
        | some mgrPhases =>
          match List.lookup cp mgrPhases with
          | none => (0, false)
          | some players =>
            let base := (players.map (fun pid =>
              match List.lookup currentGw gwData with
              | some scores => (List.lookup pid scores).getD 0
              | none => 0)).sum
            let adj := corrections.foldl (fun acc c =>
              if c.2.1 = cp ∧ c.1 ∈ players then acc + c.2.2 else acc) 0
            (base + adj, false)

/-- The phase-1 squad performance of `generate_league_table` (lines 471–487):
`for gw in range(1, current_gameweek + 1)`, skipping gameweeks absent from
`gameweek_data`, summing the scores of the players of
`manager_squads[manager].get(1, [])` (missing player score contributes 0).
Takes the manager's squad table directly; in the source every manager ranked
is a key of `manager_squads`, so the direct index cannot raise there. -/
def phase1SquadPerformance (gwData : GwData) (currentGw : Nat)
    (mgrPhases : MgrPhases) : Int :=
  ((List.range' 1 currentGw).map (fun gw =>
    match List.lookup gw gwData with
    | some scores => gwPoints scores ((List.lookup 1 mgrPhases).getD [])
    | none => 0)).sum

/-- Descending comparison on an integer value, ties keeping input order —
`sorted(phase1_diffs.items(), key=lambda x: x[1], reverse=True)`. -/
def byDiffDesc (a b : String × Int) : Bool :=
  decide (b.2 ≤ a.2)

/-- The auxiliary "WD Pos" ranking of `generate_league_table`
(lines 471–487): each manager's diff is their grand total minus their phase-1
squad performance, and managers are ranked descending on that diff
(ties in `manager_points` insertion order). -/
def diffRankings (squads : Squads) (gwData : GwData) (currentGw : Nat)
    (mps : List (String × ManagerScore)) : List (String × Nat) :=
  ranksFrom 1 ((mps.map (fun me =>
    (me.1, me.2.total - phase1SquadPerformance gwData currentGw
      ((List.lookup me.1 squads).getD [])))).mergeSort byDiffDesc)

/-- The total adjustment a corrections list contributes to phase `ph` of a
squad `pids`: the sum of deltas of entries matching the phase whose player is
in the squad. -/
def corrSumRoster (corrections : Corrections) (ph : Nat) (pids : List Nat) : Int :=
  (corrections.map (fun c => if c.2.1 = ph ∧ c.1 ∈ pids then c.2.2 else 0)).sum

/-- Modelled from the spec ("sum, over players in that manager's roster for
the phase containing the most recent period, of that one period's
PlayerPeriodScore values (missing entries contributing 0), with the
adjustment rule applied scoped to that one phase"): the specification-side
statement of the most-recent-period side query, to be compared with
`calculateRecentGameweekPoints`. -/
def specRecentPoints (gwData : GwData) (gw : Nat) (players : List Nat)
    (corrections : Corrections) (cp : Nat) : Int :=
  gwPoints ((List.lookup gw gwData).getD []) players + corrSumRoster corrections cp players

/-- Modelled from the spec ("the cumulative score contributed solely by the
player identifiers held in that manager's very first phase, measured across
all elapsed periods"): per phase-1 player, the sum of that player's scores
over periods 1..current, summed over the players — the specification-side
counterpart of `phase1SquadPerformance` with the two sums exchanged. -/
def specPhase1Cumulative (gwData : GwData) (currentGw : Nat)
    (mgrPhases : MgrPhases) : Int :=
  (((List.lookup 1 mgrPhases).getD []).map (fun pid =>
    ((List.range' 1 currentGw).map (fun gw =>
      (List.lookup pid ((List.lookup gw gwData).getD [])).getD 0)).sum)).sum

end Tracker

open Tracker

/-! ## Helper lemmas -/

theorem mem_of_mapM_some {α β : Type} {f : α → Option β} :
    ∀ {l : List α} {out : List β}, l.mapM f = some out → ∀ y ∈ out, ∃ x ∈ l, f x = some y := by
  intro l
  induction l with
  | nil =>
    intro out h y hy
    simp only [List.mapM_nil, pure, Option.some.injEq] at h
    subst h
    simp at hy
  | cons x xs ih =>
    intro out h y hy
    rw [List.mapM_cons] at h
    rcases Option.bind_eq_some.mp h with ⟨b, hb, h2⟩
    rcases Option.bind_eq_some.mp h2 with ⟨bs, hbs, h3⟩
    simp only [pure, Option.some.injEq] at h3
    subst h3
    rcases List.mem_cons.mp hy with rfl | hy'
    · exact ⟨x, List.mem_cons_self _ _, hb⟩
    · rcases ih hbs y hy' with ⟨x', hx', hfx'⟩
      exact ⟨x', List.mem_cons_of_mem _ hx', hfx'⟩

theorem mapM_eq_none_of_mem {α β : Type} {f : α → Option β} :
    ∀ {l : List α}, ∀ x ∈ l, f x = none → l.mapM f = none := by
  intro l
  induction l with
  | nil => intro x hx; simp at hx
  | cons a as ih =>
    intro x hx hfx
    rw [List.mapM_cons]
    rcases List.mem_cons.mp hx with rfl | hx'
    · rw [hfx]; rfl
    · cases hfa : f a with
      | none => rfl
      | some b => rw [ih x hx' hfx]; rfl

theorem lookup_mem {α β : Type} [BEq α] [LawfulBEq α] {l : List (α × β)} {k : α} {b : β}
    (h : List.lookup k l = some b) : (k, b) ∈ l := by
  rcases List.lookup_eq_some_iff.mp h with ⟨l₁, l₂, rfl, -⟩
  exact List.mem_append_right _ (List.mem_cons_self _ _)

/-! ## C1: grand total equals the sum of per-phase totals -/

/-- C1.  In both `calculate_manager_points` and
`calculate_points_up_to_gameweek`, every manager's grand total equals the sum
of that manager's correction-adjusted per-phase totals; the total is never
tracked independently. -/
theorem c1_grand_total_eq_sum_of_phase_totals :
    (∀ (phases : PhaseTable) (squads : Squads) (gwData : GwData)
      (corrections : Corrections) mps pps,
      calculateManagerPoints phases squads gwData corrections = some (mps, pps) →
      ∀ e ∈ mps, e.2.total = (e.2.phases.map Prod.snd).sum) ∧
    (∀ (phases : PhaseTable) (squads : Squads) (gwData : GwData)
      (corrections : Corrections) (g : Nat) mps,
      calculatePointsUpToGameweek phases squads gwData corrections g = some mps →
      ∀ e ∈ mps, e.2.total = (e.2.phases.map Prod.snd).sum) := by
  constructor
  · intro phases squads gwData corrections mps pps h e he
    unfold calculateManagerPoints at h
    split at h
    · simp only [Option.some.injEq, Prod.mk.injEq] at h
      rw [← h.1] at he
      simp at he
    · split at h
      · simp only [Option.some.injEq, Prod.mk.injEq] at h
        rw [← h.1] at he
        simp at he
      · rcases Option.bind_eq_some.mp h with ⟨phasePts, -, h2⟩
        simp only [Option.some.injEq, Prod.mk.injEq] at h2
        rw [← h2.1] at he
        rcases List.mem_map.mp he with ⟨me, -, rfl⟩
        rfl
  · intro phases squads gwData corrections g mps h e he
    rcases mem_of_mapM_some h e he with ⟨me, -, hf⟩
    rcases Option.map_eq_some'.mp hf with ⟨pts, -, h2⟩
    rw [← h2]

/-! ## C3: missing scores contribute zero -/

/-- C3.  A rostered player with no score entry anywhere in the gameweek data
contributes 0 to every phase total (dropping the player changes nothing, and
the computation is total, not an error); and in the concrete scenario —
roster `{"Alice": {1: [10, 11]}}`, period-1 scores `{10: 5, 11: 3}`, period-2
scores `{10: 2}`, phase 1 covering periods 1 and 2, no adjustments — Alice's
phase-1 total and grand total are both 10. -/
theorem c3_missing_scores_contribute_zero :
    (∀ (gwData : GwData) (gws : List Nat) (pids : List Nat) (p : Nat),
      (∀ scores ∈ gwData.map Prod.snd, List.lookup p scores = none) →
      rawPhasePoints gwData gws (pids ++ [p]) = rawPhasePoints gwData gws pids) ∧
    calculateManagerPoints [(1, [1, 2])] [("Alice", [(1, [10, 11])])]
        [(1, [(10, 5), (11, 3)]), (2, [(10, 2)])] []
      = some ([("Alice", ⟨10, [(1, 10)]⟩)], [("Alice", [(1, 10)])]) := by
  constructor
  · intro gwData gws pids p hmissing
    unfold rawPhasePoints
    congr 1
    apply List.map_congr_left
    intro gw _
    cases hgw : List.lookup gw gwData with
    | none => rfl
    | some scores =>
      have hs : scores ∈ gwData.map Prod.snd :=
        List.mem_map.mpr ⟨(gw, scores), lookup_mem hgw, rfl⟩
      show gwPoints scores (pids ++ [p]) = gwPoints scores pids
      unfold gwPoints
      rw [List.map_append, List.sum_append]
      simp [hmissing scores hs]
  · rfl

/-- Witness for C3: the hypothesis of the general part holds at a concrete
input (player 11 absent from every score table of a one-gameweek dataset) and
the conclusion evaluates there. -/
theorem c3_witness :
    rawPhasePoints [(1, [(10, 5)])] [1, 2] ([10] ++ [11])
      = rawPhasePoints [(1, [(10, 5)])] [1, 2] [10] :=
  c3_missing_scores_contribute_zero.1 [(1, [(10, 5)])] [1, 2] [10] 11 (by decide)

/-- Witness for C1: the theorem applied at the concrete Alice scenario. -/
theorem c1_witness :
    (ManagerScore.mk 10 [(1, 10)]).total = ([((1 : Nat), (10 : Int))].map Prod.snd).sum :=
  c1_grand_total_eq_sum_of_phase_totals.1 [(1, [1, 2])] [("Alice", [(1, [10, 11])])]
    [(1, [(10, 5), (11, 3)]), (2, [(10, 2)])] []
    [("Alice", ⟨10, [(1, 10)]⟩)] [("Alice", [(1, 10)])]
    (by decide) ("Alice", ⟨10, [(1, 10)]⟩) (by decide)

/-! ## C2: point adjustments are applied exactly once, iff the roster contains
the player -/

theorem lookup_updateAssoc (pts : List (Nat × Int)) (ph : Nat) (adj : Int) (q : Nat) :
    List.lookup q (updateAssoc pts ph adj)
      = (List.lookup q pts).map (fun v => if q = ph then v + adj else v) := by
  induction pts with
  | nil => rfl
  | cons e rest ih =>
    rcases e with ⟨k, v⟩
    unfold updateAssoc at ih ⊢
    simp only [List.map_cons]
    by_cases hk : k = ph
    · simp only [hk, if_pos rfl]
      by_cases hq : q = ph
      · simp [List.lookup_cons, hq]
      · have : (q == ph) = false := beq_false_of_ne hq
        simp [List.lookup_cons, this, ih, hq]
    · simp only [if_neg hk]
      by_cases hq : q = k
      · have : q ≠ ph := fun h => hk (hq ▸ h)
        simp [List.lookup_cons, hq, this, hk]
      · have : (q == k) = false := beq_false_of_ne hq
        simp [List.lookup_cons, this, ih]

theorem applyCorrections_cons (c : Nat × Nat × Int) (cs : Corrections)
    (m : MgrPhases) (pts : List (Nat × Int)) :
    applyCorrections (c :: cs) m pts
      = applyCorrections cs m
          (match List.lookup c.2.1 m with
           | some pids => if c.1 ∈ pids then updateAssoc pts c.2.1 c.2.2 else pts
           | none => pts) := rfl

theorem corrSumRoster_cons (c : Nat × Nat × Int) (cs : Corrections) (ph : Nat)
    (pids : List Nat) :
    corrSumRoster (c :: cs) ph pids
      = (if c.2.1 = ph ∧ c.1 ∈ pids then c.2.2 else 0) + corrSumRoster cs ph pids := by
  unfold corrSumRoster
  simp

theorem lookup_applyCorrections (cs : Corrections) (mgrPhases : MgrPhases) :
    ∀ (pts : List (Nat × Int)) (q : Nat),
    List.lookup q (applyCorrections cs mgrPhases pts)
      = (List.lookup q pts).map
          (fun v => v + corrSumRoster cs q ((List.lookup q mgrPhases).getD [])) := by
  induction cs with
  | nil =>
    intro pts q
    unfold applyCorrections corrSumRoster
    simp only [List.foldl_nil, List.map_nil, List.sum_nil, Int.add_zero]
    cases List.lookup q pts <;> rfl
  | cons c cs ih =>
    intro pts q
    rw [applyCorrections_cons]
    cases hl : List.lookup c.2.1 mgrPhases with
    | none =>
      rw [ih, corrSumRoster_cons]
      cases List.lookup q pts with
      | none => rfl
      | some v =>
        simp only [Option.map_some']
        by_cases hq : c.2.1 = q
        · rw [← hq, hl]
          simp
        · simp [hq]
    | some pids =>
      by_cases hmem : c.1 ∈ pids
      · simp only [if_pos hmem]
        rw [ih, lookup_updateAssoc, corrSumRoster_cons]
        cases List.lookup q pts with
        | none => rfl
        | some v =>
          simp only [Option.map_some']
          by_cases hq : q = c.2.1
          · rw [hq] at *
            rw [hl]
            simp [hmem, Int.add_assoc]
          · have hq' : c.2.1 ≠ q := fun h => hq h.symm
            simp [hq, hq']
      · simp only [if_neg hmem]
        rw [ih, corrSumRoster_cons]
        cases List.lookup q pts with
        | none => rfl
        | some v =>
          simp only [Option.map_some']
          by_cases hq : c.2.1 = q
          · rw [← hq, hl]
            simp [hmem]
          · simp [hq]

/-- C2.  Removing one `(P, K, D)` entry from the corrections list changes a
manager's phase-`ph` total by exactly `D` when `ph = K` and the manager's
phase-`K` squad contains `P`, and by nothing otherwise: each adjustment entry
is applied exactly once per manager holding the player in that phase,
independently of the other entries and other phases, and never to a manager
whose phase-`K` squad excludes the player. -/
theorem c2_adjustment_applied_once_iff_roster_contains
    (l1 l2 : Corrections) (P K : Nat) (D : Int) (mgrPhases : MgrPhases)
    (pts : List (Nat × Int)) (ph : Nat) :
    List.lookup ph (applyCorrections (l1 ++ (P, K, D) :: l2) mgrPhases pts)
      = (List.lookup ph (applyCorrections (l1 ++ l2) mgrPhases pts)).map
          (fun v => v + if ph = K ∧ P ∈ (List.lookup K mgrPhases).getD [] then D else 0) := by
  rw [lookup_applyCorrections, lookup_applyCorrections]
  cases List.lookup ph pts with
  | none => rfl
  | some v =>
    simp only [Option.map_some', Option.some.injEq]
    have hsplit : ∀ (pids : List Nat),
        corrSumRoster (l1 ++ (P, K, D) :: l2) ph pids
          = corrSumRoster (l1 ++ l2) ph pids
            + (if K = ph ∧ P ∈ pids then D else 0) := by
      intro pids
      unfold corrSumRoster
      simp only [List.map_append, List.sum_append, List.map_cons, List.sum_cons]
      ring
    rw [hsplit]
    by_cases hk : ph = K
    · subst hk
      simp [Int.add_assoc]
    · have hk' : ¬K = ph := fun h => hk h.symm
      simp [hk, hk']

/-! ## C10: the cutoff variant applies corrections regardless of the cutoff -/

theorem foldl_add_if {α : Type} (P : α → Prop) [DecidablePred P] (g : α → Int) :
    ∀ (l : List α) (x : Int),
    l.foldl (fun acc c => if P c then acc + g c else acc) x
      = x + (l.map (fun c => if P c then g c else 0)).sum := by
  intro l
  induction l with
  | nil => intro x; simp
  | cons c cs ih =>
    intro x
    simp only [List.foldl_cons, List.map_cons, List.sum_cons]
    by_cases h : P c
    · rw [if_pos h, if_pos h, ih]
      ring
    · rw [if_neg h, if_neg h, ih]
      ring

/-- C10.  In `calculate_points_up_to_gameweek`, a phase entry equals the raw
points of the gameweeks up to the cutoff plus the full corrections sum for
that phase and squad — a term that does not mention the cutoff at all, so
matching adjustments are applied in full even for phases lying beyond the
cutoff.  Concretely: with only phase-4 player 218 rostered, no gameweek data
and cutoff 3 (phase 4 covers gameweeks 25–29, all beyond the cutoff), the
recomputed baseline still contains the +8 adjustment. -/
theorem c10_cutoff_variant_applies_corrections_beyond_cutoff :
    (∀ (phases : PhaseTable) (gwData : GwData) (cs : Corrections) (g pn : Nat)
       (pids gws : List Nat),
      List.lookup pn phases = some gws →
      upToPhaseEntry phases gwData cs g pn pids
        = some (pn, rawPhasePoints gwData (gws.filter (· ≤ g)) pids
            + corrSumRoster cs pn pids)) ∧
    calculatePointsUpToGameweek PHASES [("A", [(4, [218])])] [] POINT_CORRECTIONS 3
      = some [("A", ⟨8, [(4, 8)]⟩)] := by
  constructor
  · intro phases gwData cs g pn pids gws h
    unfold upToPhaseEntry
    rw [h, Option.map_some']
    have := foldl_add_if (fun c : Nat × Nat × Int => c.2.1 = pn ∧ c.1 ∈ pids)
      (fun c => c.2.2) cs (rawPhasePoints gwData (gws.filter (· ≤ g)) pids)
    simp only [Option.some.injEq, Prod.mk.injEq, true_and]
    exact this
  · decide

/-- Witness for C10: the theorem applied at the concrete phase-4 input with
cutoff 3. -/
theorem c10_witness :
    upToPhaseEntry PHASES [] POINT_CORRECTIONS 3 4 [218]
      = some (4, rawPhasePoints [] ((List.range' 25 5).filter (· ≤ 3)) [218]
          + corrSumRoster POINT_CORRECTIONS 4 [218]) :=
  c10_cutoff_variant_applies_corrections_beyond_cutoff.1 PHASES [] POINT_CORRECTIONS
    3 4 [218] (List.range' 25 5) (by decide)

/-! ## C6: the most-recent-period side query -/

/-- C6.  On the normal path (a nonzero current gameweek whose phase is found,
is a real phase index, appears in the manager's phase points, and a squad for
it exists), `calculate_recent_gameweek_points` returns exactly the sum of the
one period's scores over the players of the phase squad (missing entries
contributing 0) plus the adjustment sum scoped to that phase — the same
roster-to-score lookup and adjustment rule as the main aggregation, restricted
to one phase. -/
theorem c6_recent_period_points_match_spec
    (phases : PhaseTable) (squads : Squads) (gwData : GwData)
    (corrections : Corrections) (currentGw : Nat)
    (phasePoints : List (String × List (Nat × Int))) (manager : String)
    (cp : Nat) (mgrPhases : MgrPhases) (players : List Nat)
    (hgw : currentGw ≠ 0)
    (hfind : findCurrentPhase phases currentGw = some cp)
    (hcp0 : cp ≠ 0)
    (hpp : (List.lookup cp ((List.lookup manager phasePoints).getD [])).isSome)
    (hsq : List.lookup manager squads = some mgrPhases)
    (hcps : List.lookup cp mgrPhases = some players) :
    (calculateRecentGameweekPoints phases squads gwData corrections currentGw
        phasePoints manager).1
      = specRecentPoints gwData currentGw players corrections cp := by
  unfold calculateRecentGameweekPoints
  have hnone : (List.lookup cp ((List.lookup manager phasePoints).getD [])).isNone = false := by
    rw [Option.isNone_eq_false_iff]
    exact hpp
  rw [if_neg hgw, hfind]
  simp only [hnone, if_neg hcp0, Bool.false_eq_true, if_false, hsq, hcps]
  unfold specRecentPoints
  have hadj := foldl_add_if (fun c : Nat × Nat × Int => c.2.1 = cp ∧ c.1 ∈ players)
    (fun c => c.2.2) corrections 0
  rw [hadj, Int.zero_add]
  have hbase : (players.map (fun pid =>
      match List.lookup currentGw gwData with
      | some scores => (List.lookup pid scores).getD 0
      | none => 0)).sum
        = gwPoints ((List.lookup currentGw gwData).getD []) players := by
    cases hgd : List.lookup currentGw gwData with
    | none => simp [gwPoints]
    | some scores => rfl
  rw [hbase]
  rfl

/-- Witness for C6: the theorem applied at a one-manager, one-phase input
with one matching adjustment. -/
theorem c6_witness :
    (calculateRecentGameweekPoints [(1, [1])] [("M", [(1, [10])])]
        [(1, [(10, 7)])] [(10, 1, 2)] 1 [("M", [(1, 7)])] "M").1
      = specRecentPoints [(1, [(10, 7)])] 1 [10] [(10, 1, 2)] 1 :=
  c6_recent_period_points_match_spec [(1, [1])] [("M", [(1, [10])])]
    [(1, [(10, 7)])] [(10, 1, 2)] 1 [("M", [(1, 7)])] "M" 1 [(1, [10])] [10]
    (by decide) (by decide) (by decide) (by decide) (by decide) (by decide)

/-! ## C5: the movement states -/

/-- C5.  A manager with a baseline entry is UP when the current rank is
numerically smaller, DOWN when greater, UNCHANGED when equal; a manager with
no baseline entry is NEW; and at the first period of the season `main` uses
the empty baseline, against which every manager is NEW. -/
theorem c5_movement_states :
    (∀ (prev : List (String × Nat)) (manager : String) (pos prevPos : Nat),
      List.lookup manager prev = some prevPos →
      (pos < prevPos → positionChange prev manager pos = .up) ∧
      (prevPos < pos → positionChange prev manager pos = .down) ∧
      (prevPos = pos → positionChange prev manager pos = .unchanged)) ∧
    (∀ (prev : List (String × Nat)) (manager : String) (pos : Nat),
      List.lookup manager prev = none → positionChange prev manager pos = .new) ∧
    (∀ (phases : PhaseTable) (squads : Squads) (gwData : GwData) (cs : Corrections),
      mainPreviousStandings phases squads gwData cs 1 = some ⟨0, []⟩) ∧
    (∀ (manager : String) (pos : Nat), positionChange [] manager pos = .new) := by
  refine ⟨?_, ?_, ?_, ?_⟩
  · intro prev manager pos prevPos h
    refine ⟨?_, ?_, ?_⟩
    · intro hlt
      simp [positionChange, h, gt_iff_lt, hlt]
    · intro hlt
      have h1 : ¬pos < prevPos := by omega
      simp [positionChange, h, gt_iff_lt, h1, hlt]
    · intro heq
      have h1 : ¬pos < prevPos := by omega
      have h2 : ¬prevPos < pos := by omega
      simp [positionChange, h, gt_iff_lt, h1, h2]
  · intro prev manager pos h
    unfold positionChange
    rw [h]
  · intro phases squads gwData cs
    rfl
  · intro manager pos
    rfl

/-- Witness for C5: a manager who moved from rank 2 to rank 1 is UP. -/
theorem c5_witness : positionChange [("A", 2)] "A" 1 = .up :=
  (c5_movement_states.1 [("A", 2)] "A" 1 2 (by decide)).1 (by decide)

/-! ## C8: the snapshot-store read operation -/

/-- C8.  `load_previous_standings` returns the stored record when the file
exists and parses; it returns the explicit empty result when the file is
absent or unparseable; a corrupt file yields the same result as an absent one
and additionally surfaces the corruption diagnostic. -/
theorem c8_snapshot_read :
    (∀ s : Standings, loadPreviousStandings (.stored s) = (some s, false)) ∧
    loadPreviousStandings (FileState.absent : FileState Standings) = (none, false) ∧
    (loadPreviousStandings (FileState.corrupt : FileState Standings)).1
      = (loadPreviousStandings (FileState.absent : FileState Standings)).1 ∧
    (loadPreviousStandings (FileState.corrupt : FileState Standings)).2 = true :=
  ⟨fun _ => rfl, rfl, rfl, rfl⟩

/-! ## C9: invariant violations are surfaced -/

/-- C9.  A roster phase missing from the phase table makes
`calculate_manager_points` raise (`KeyError`, modelled `none`) instead of
returning a wrong total, provided the early empty-data returns are not taken;
and a current gameweek covered by no phase makes
`calculate_recent_gameweek_points` print its warning (the surfaced
diagnostic) rather than silently fabricating a total. -/
theorem c9_invariant_violations_surfaced :
    (∀ (phases : PhaseTable) (squads : Squads) (gwData : GwData) (cs : Corrections)
       (mgr : String) (mgrPhases : MgrPhases) (pn : Nat) (pids : List Nat),
      (mgr, mgrPhases) ∈ squads → (pn, pids) ∈ mgrPhases →
      List.lookup pn phases = none → gwData ≠ [] →
      calculateManagerPoints phases squads gwData cs = none) ∧
    (∀ (phases : PhaseTable) (squads : Squads) (gwData : GwData) (cs : Corrections)
       (cg : Nat) (pp : List (String × List (Nat × Int))) (mgr : String),
      cg ≠ 0 → findCurrentPhase phases cg = none →
      (calculateRecentGameweekPoints phases squads gwData cs cg pp mgr).2 = true) := by
  constructor
  · intro phases squads gwData cs mgr mgrPhases pn pids hmgr hpn hlook hgw
    have hsq : squads.isEmpty = false := by
      cases squads with
      | nil => simp at hmgr
      | cons a l => rfl
    have hgd : gwData.isEmpty = false := by
      cases gwData with
      | nil => exact absurd rfl hgw
      | cons a l => rfl
    unfold calculateManagerPoints
    rw [hsq, hgd]
    simp only [Bool.false_eq_true, if_false]
    have hinner : mgrRawPhasePoints phases gwData mgrPhases = none := by
      unfold mgrRawPhasePoints
      apply mapM_eq_none_of_mem (pn, pids) hpn
      rw [hlook]
      rfl
    have houter : squads.mapM (fun me =>
        (mgrRawPhasePoints phases gwData me.2).map
          (fun pts => (me.1, applyCorrections cs me.2 pts))) = none := by
      apply mapM_eq_none_of_mem (mgr, mgrPhases) hmgr
      rw [hinner]
      rfl
    rw [houter]
    rfl
  · intro phases squads gwData cs cg pp mgr hcg hfind
    unfold calculateRecentGameweekPoints
    rw [if_neg hcg, hfind]

/-- Witness for C9: a roster referencing phase 1 against an empty phase table
makes the aggregator raise, and gameweek 1 against an empty phase table makes
the side query warn. -/
theorem c9_witness :
    calculateManagerPoints [] [("A", [(1, [5])])] [(1, [])] [] = none ∧
    (calculateRecentGameweekPoints [] [] [] [] 1 [] "A").2 = true :=
  ⟨c9_invariant_violations_surfaced.1 [] [("A", [(1, [5])])] [(1, [])] []
      "A" [(1, [5])] 1 [5] (by decide) (by decide) (by decide) (by decide),
    c9_invariant_violations_surfaced.2 [] [] [] [] 1 [] "A" (by decide) (by decide)⟩

/-! ## C4: ranks are a bijection onto 1..N, ties broken by input order -/

theorem ranksFrom_map_snd {α : Type} :
    ∀ (l : List (String × α)) (k : Nat),
    (ranksFrom k l).map Prod.snd = List.range' k l.length := by
  intro l
  induction l with
  | nil => intro k; rfl
  | cons e rest ih =>
    intro k
    simp only [ranksFrom, List.map_cons, List.length_cons, List.range'_succ]
    rw [ih]

theorem ranksFrom_map_fst {α : Type} :
    ∀ (l : List (String × α)) (k : Nat),
    (ranksFrom k l).map Prod.fst = l.map Prod.fst := by
  intro l
  induction l with
  | nil => intro k; rfl
  | cons e rest ih =>
    intro k
    simp only [ranksFrom, List.map_cons]
    rw [ih]

theorem lookup_ranksFrom_of_mem {α : Type} :
    ∀ {l : List (String × α)} (k : Nat) (key : String),
    key ∈ l.map Prod.fst →
    ∃ r, List.lookup key (ranksFrom k l) = some r ∧ k ≤ r := by
  intro l
  induction l with
  | nil => intro k key h; simp at h
  | cons e rest ih =>
    intro k key h
    by_cases hk : key = e.1
    · exact ⟨k, by simp [ranksFrom, List.lookup_cons, hk], Nat.le_refl k⟩
    · have h' : key ∈ rest.map Prod.fst := by
        rw [List.map_cons] at h
        rcases List.mem_cons.mp h with h0 | h0
        · exact absurd h0 hk
        · exact h0
      rcases ih (k + 1) key h' with ⟨r, hr, hkr⟩
      refine ⟨r, ?_, by omega⟩
      simp [ranksFrom, List.lookup_cons, beq_eq_false_iff_ne.mpr hk, hr]

theorem lookup_ranksFrom_pair {α : Type} :
    ∀ {l : List (String × α)} {a b : String × α} (k : Nat),
    (l.map Prod.fst).Nodup → List.Sublist [a, b] l →
    ∃ ra rb, List.lookup a.1 (ranksFrom k l) = some ra ∧
      List.lookup b.1 (ranksFrom k l) = some rb ∧ ra < rb := by
  intro l
  induction l with
  | nil =>
    intro a b k hnd hsub
    have := List.sublist_nil.mp hsub
    simp at this
  | cons e rest ih =>
    intro a b k hnd hsub
    have hnd' : (rest.map Prod.fst).Nodup := by
      simp only [List.map_cons, List.nodup_cons] at hnd
      exact hnd.2
    have hhead : e.1 ∉ rest.map Prod.fst := by
      simp only [List.map_cons, List.nodup_cons] at hnd
      exact hnd.1
    cases hsub with
    | cons _ h =>
      have ha : a ∈ rest := h.subset (List.mem_cons_self _ _)
      have hb : b ∈ rest := h.subset (List.mem_cons_of_mem _ (List.mem_cons_self _ _))
      have hane : a.1 ≠ e.1 := fun heq =>
        hhead (heq ▸ List.mem_map_of_mem Prod.fst ha)
      have hbne : b.1 ≠ e.1 := fun heq =>
        hhead (heq ▸ List.mem_map_of_mem Prod.fst hb)
      rcases ih (k + 1) hnd' h with ⟨ra, rb, hra, hrb, hlt⟩
      refine ⟨ra, rb, ?_, ?_, hlt⟩
      · simp [ranksFrom, List.lookup_cons, beq_eq_false_iff_ne.mpr hane, hra]
      · simp [ranksFrom, List.lookup_cons, beq_eq_false_iff_ne.mpr hbne, hrb]
    | cons₂ _ h =>
      have hb : b ∈ rest := h.subset (List.mem_cons_self _ _)
      have hbne : b.1 ≠ e.1 := fun heq =>
        hhead (heq ▸ List.mem_map_of_mem Prod.fst hb)
      rcases lookup_ranksFrom_of_mem (k + 1) b.1 (List.mem_map_of_mem Prod.fst hb)
        with ⟨rb, hrb, hkrb⟩
      refine ⟨k, rb, by simp [ranksFrom, List.lookup_cons], ?_, by omega⟩
      simp [ranksFrom, List.lookup_cons, beq_eq_false_iff_ne.mpr hbne, hrb]

theorem byTotalDesc_trans (a b c : String × ManagerScore) :
    byTotalDesc a b → byTotalDesc b c → byTotalDesc a c := by
  simp only [byTotalDesc, decide_eq_true_eq]
  omega

theorem byTotalDesc_total (a b : String × ManagerScore) :
    byTotalDesc a b || byTotalDesc b a := by
  simp only [byTotalDesc, Bool.or_eq_true, decide_eq_true_eq]
  omega

/-- C4.  With distinct manager names, the standings built from the
descending-by-total sort assign exactly the ranks 1..N in order (a bijection
onto {1..N}: the rank list is `range' 1 N` and the name list is a permutation
of the input names, so no two managers share a rank), and two managers with
equal grand totals keep their first-seen input order: the earlier one gets
the strictly smaller rank. -/
theorem c4_standings_bijection_and_stable_ties
    (mps : List (String × ManagerScore)) (hnd : (mps.map Prod.fst).Nodup) :
    ((standingsOf mps).map Prod.snd = List.range' 1 mps.length) ∧
    ((standingsOf mps).map Prod.fst).Perm (mps.map Prod.fst) ∧
    (∀ (u v w : List (String × ManagerScore)) (a b : String × ManagerScore),
      mps = u ++ a :: v ++ b :: w → a.2.total = b.2.total →
      ∃ ra rb, List.lookup a.1 (standingsOf mps) = some ra ∧
        List.lookup b.1 (standingsOf mps) = some rb ∧ ra < rb) := by
  have hperm : (sortManagers mps).Perm mps := List.mergeSort_perm mps byTotalDesc
  refine ⟨?_, ?_, ?_⟩
  · unfold standingsOf
    rw [ranksFrom_map_snd]
    rw [show (sortManagers mps).length = mps.length from hperm.length_eq]
  · unfold standingsOf
    rw [ranksFrom_map_fst]
    exact hperm.map Prod.fst
  · intro u v w a b hdecomp heq
    have hab : byTotalDesc a b := by
      simp only [byTotalDesc, decide_eq_true_eq]
      omega
    have hsub : List.Sublist [a, b] mps := by
      rw [hdecomp]
      have h1 : List.Sublist [b] (b :: w) := (List.nil_sublist w).cons₂ b
      have h0 : List.Sublist [a] (u ++ a :: v) :=
        ((List.nil_sublist v).cons₂ a).trans (List.sublist_append_right u (a :: v))
      exact h0.append h1
    have hpair : List.Sublist [a, b] (sortManagers mps) :=
      List.pair_sublist_mergeSort byTotalDesc_trans byTotalDesc_total hab hsub
    have hnd' : ((sortManagers mps).map Prod.fst).Nodup :=
      ((hperm.map Prod.fst).nodup_iff).mpr hnd
    exact lookup_ranksFrom_pair 1 hnd' hpair

/-- Witness for C4: two managers tied on 5 points; the first-seen one gets
the smaller rank. -/
theorem c4_witness :
    ∃ ra rb,
      List.lookup "A" (standingsOf [("A", ⟨5, []⟩), ("B", ⟨5, []⟩)]) = some ra ∧
      List.lookup "B" (standingsOf [("A", ⟨5, []⟩), ("B", ⟨5, []⟩)]) = some rb ∧
      ra < rb :=
  (c4_standings_bijection_and_stable_ties [("A", ⟨5, []⟩), ("B", ⟨5, []⟩)]
      (by decide)).2.2
    [] [] [] ("A", ⟨5, []⟩) ("B", ⟨5, []⟩) rfl rfl

/-! ## C7: the auxiliary "original squad" ranking -/

theorem list_sum_swap {α β : Type} (f : α → β → Int) :
    ∀ (xs : List α) (ys : List β),
    (xs.map (fun x => (ys.map (fun y => f x y)).sum)).sum
      = (ys.map (fun y => (xs.map (fun x => f x y)).sum)).sum := by
  intro xs
  induction xs with
  | nil => intro ys; simp
  | cons x xs ih =>
    intro ys
    simp only [List.map_cons, List.sum_cons, ih]
    rw [← List.sum_map_add]

/-- The per-gameweek term of `phase1SquadPerformance` written as a sum over
the phase-1 players. -/
theorem phase1_term_eq (gwData : GwData) (m : MgrPhases) (gw : Nat) :
    (match List.lookup gw gwData with
      | some scores => gwPoints scores ((List.lookup 1 m).getD [])
      | none => 0)
      = (((List.lookup 1 m).getD []).map (fun pid =>
          (List.lookup pid ((List.lookup gw gwData).getD [])).getD 0)).sum := by
  cases List.lookup gw gwData with
  | none => simp [gwPoints]
  | some scores => rfl

/-- The code's gameweek-outer sum equals the spec's player-outer sum. -/
theorem phase1SquadPerformance_eq_specPhase1Cumulative
    (gwData : GwData) (cg : Nat) (m : MgrPhases) :
    phase1SquadPerformance gwData cg m = specPhase1Cumulative gwData cg m := by
  unfold phase1SquadPerformance specPhase1Cumulative
  rw [List.map_congr_left (fun gw _ => phase1_term_eq gwData m gw)]
  exact list_sum_swap (fun gw pid =>
    (List.lookup pid ((List.lookup gw gwData).getD [])).getD 0) (List.range' 1 cg)
    ((List.lookup 1 m).getD [])

/-- Counterexample for C7.  Two program states agree on every manager's
phase-1-squad cumulative score (both managers score 0 from their phase-1
players in both states, as the first two conjuncts certify), yet the
auxiliary rankings differ, because the ranking is computed from the grand
total minus that cumulative score, not from the cumulative score alone:
raising phase-2 player 7's gameweek-12 score from 0 to 10 flips the ranking.
So the auxiliary ranking is not derived (solely) from the phase-1-squad
cumulative scores. -/
theorem c7_counterexample :
    phase1SquadPerformance [(12, [(7, 0)])] 12 [(1, [])]
      = phase1SquadPerformance [(12, [(7, 10)])] 12 [(1, [])] ∧
    phase1SquadPerformance [(12, [(7, 0)])] 12 [(2, [7])]
      = phase1SquadPerformance [(12, [(7, 10)])] 12 [(2, [7])] ∧
    (calculateManagerPoints PHASES [("A", [(1, [])]), ("B", [(2, [7])])]
        [(12, [(7, 0)])] POINT_CORRECTIONS).map
        (fun r => diffRankings [("A", [(1, [])]), ("B", [(2, [7])])]
          [(12, [(7, 0)])] 12 r.1)
      ≠ (calculateManagerPoints PHASES [("A", [(1, [])]), ("B", [(2, [7])])]
          [(12, [(7, 10)])] POINT_CORRECTIONS).map
          (fun r => diffRankings [("A", [(1, [])]), ("B", [(2, [7])])]
            [(12, [(7, 10)])] 12 r.1) := by
  refine ⟨by decide, by decide, ?_⟩
  have hmps1 : calculateManagerPoints PHASES [("A", [(1, [])]), ("B", [(2, [7])])]
      [(12, [(7, 0)])] POINT_CORRECTIONS
      = some ([("A", ⟨0, [(1, 0)]⟩), ("B", ⟨0, [(2, 0)]⟩)],
          [("A", [(1, 0)]), ("B", [(2, 0)])]) := by decide
  have hmps2 : calculateManagerPoints PHASES [("A", [(1, [])]), ("B", [(2, [7])])]
      [(12, [(7, 10)])] POINT_CORRECTIONS
      = some ([("A", ⟨0, [(1, 0)]⟩), ("B", ⟨10, [(2, 10)]⟩)],
          [("A", [(1, 0)]), ("B", [(2, 10)])]) := by decide
  have hd1 : diffRankings [("A", [(1, [])]), ("B", [(2, [7])])] [(12, [(7, 0)])] 12
      [("A", ⟨0, [(1, 0)]⟩), ("B", ⟨0, [(2, 0)]⟩)] = [("A", 1), ("B", 2)] := by
    unfold diffRankings
    have hm : ([("A", (⟨0, [(1, 0)]⟩ : ManagerScore)), ("B", ⟨0, [(2, 0)]⟩)].map
        (fun me => (me.1, me.2.total - phase1SquadPerformance [(12, [(7, 0)])] 12
          ((List.lookup me.1 [("A", [(1, [])]), ("B", [(2, [7])])]).getD []))))
        = [("A", (0 : Int)), ("B", 0)] := by decide
    rw [hm, List.mergeSort]
    simp [List.merge, byDiffDesc, ranksFrom]
  have hd2 : diffRankings [("A", [(1, [])]), ("B", [(2, [7])])] [(12, [(7, 10)])] 12
      [("A", ⟨0, [(1, 0)]⟩), ("B", ⟨10, [(2, 10)]⟩)] = [("B", 1), ("A", 2)] := by
    unfold diffRankings
    have hm : ([("A", (⟨0, [(1, 0)]⟩ : ManagerScore)), ("B", ⟨10, [(2, 10)]⟩)].map
        (fun me => (me.1, me.2.total - phase1SquadPerformance [(12, [(7, 10)])] 12
          ((List.lookup me.1 [("A", [(1, [])]), ("B", [(2, [7])])]).getD []))))
        = [("A", (0 : Int)), ("B", 10)] := by decide
    rw [hm, List.mergeSort]
    simp [List.merge, byDiffDesc, ranksFrom]
  rw [hmps1, hmps2, Option.map_some', Option.map_some']
  simp only [hd1, hd2]
  decide

/-- C7 (amended).  The auxiliary ranking ranks managers descending (ties in
first-seen order) on the difference between the manager's grand total and the
cumulative score contributed solely by the players held in the manager's
phase-1 squad across periods 1..current — where the cumulative score is
exactly the spec's per-player sum over all elapsed periods, independent of
later roster changes.  (It is a separate output and is not an input of
`standingsOf`, the primary standings.) -/
theorem c7_amended_ranking_by_diff (squads : Squads) (gwData : GwData)
    (cg : Nat) (mps : List (String × ManagerScore)) :
    diffRankings squads gwData cg mps
      = ranksFrom 1 ((mps.map (fun me =>
          (me.1, me.2.total - specPhase1Cumulative gwData cg
            ((List.lookup me.1 squads).getD [])))).mergeSort byDiffDesc) := by
  unfold diffRankings
  rw [List.map_congr_left (fun me _ => by
    rw [phase1SquadPerformance_eq_specPhase1Cumulative])]
